import Mathlib

/-!
Verification model of the BudEngine fiber-based task scheduler
(`src/threading/bud.threading.cpp`).

The C++ scheduler is embedded shallowly and sequentially: each scheduler
operation becomes a Lean function on an explicit scheduler state, and in
addition emits a trace (a `List Event`) recording, in program order, the
externally visible actions the C++ function performs (counter increments and
decrements, queue pushes, waiting-list registration, context switches, ...).
Ordering claims of the specification ("the increment happens before the
push") become claims about the order of events in the emitted trace.

Machine integers: the counter value is a C++ `int`; it is modelled as `Int`
(the scheduler never brings it anywhere near the 32-bit range: it counts
outstanding tasks).

Intrusive lists (`next_waiting` chains hanging off a `Counter`, `next_pool`
chains forming the fiber free-list) are modelled as a `List FiberId` held by
the owning structure, together with the per-fiber link fields, which the
operations keep in sync exactly where the C++ code writes them.
-/

namespace BudThreading

/-- Fiber identities: the model names fibers by natural numbers. -/
abbrev FiberId := Nat

/-- Counter identities: the model names counters by natural numbers. -/
abbrev CounterId := Nat

/-- Model of `bud::threading::Fiber` (the fields the scheduler logic reads and
writes; the raw stack buffer and saved register area of the C++ struct are
memory layout and are not part of the logical state). `has_work` models
whether the `std::move_only_function` member is non-null. -/
structure Fiber where
  has_work : Bool
  signal_counter : Option CounterId
  is_finished : Bool
  next_waiting : Option FiberId
  next_pool : Option FiberId
  pending_wait_counter : Option CounterId
deriving Repr, DecidableEq

/-- Model of `bud::threading::Counter`: the atomic `value` together with the
intrusive `waiting_list` (head-first: the list head is the most recently
pushed waiter, as in the CAS push of `execute_task`). -/
structure Counter where
  value : Int
  waiting_list : List FiberId
deriving Repr, DecidableEq

/-- Pointwise update of a function out of `Nat`, used for the counter, fiber
and worker-queue tables of the scheduler state. -/
def upd {β : Type} (f : Nat → β) (a : Nat) (b : β) : Nat → β :=
  fun x => if x = a then b else f x

/-- The scheduler state: the counter table, the per-worker ready queues
(`workers[i]->queue`, modelled head-first with push = cons), the
mutex-guarded `main_thread_incoming_queue` FIFO (appended at the back,
popped at the front), the `LockFreeFiberPool` free-list (head-first LIFO),
and the fiber table. -/
structure SchedState where
  counters : CounterId → Counter
  queues : Nat → List FiberId
  mainQueue : List FiberId
  pool : List FiberId
  fibers : FiberId → Fiber

/-- Thread-local context of the calling OS thread: whether `t_scheduler` has
been established for this thread, and its `t_worker_index`. -/
structure ThreadCtx where
  t_scheduler : Bool
  t_worker_index : Nat
deriving Repr, DecidableEq

/-- Externally visible actions of the scheduler, recorded in program order. -/
inductive Event where
  | counterInc (c : CounterId)
  | counterDec (c : CounterId) (prev : Int)
  | queuePush (w : Nat) (f : FiberId)
  | mainQueueAppend (f : FiberId)
  | waitListPush (c : CounterId) (f : FiberId)
  | waitListSwapOut (c : CounterId)
  | counterLoad (c : CounterId) (v : Int)
  | runWork (f : FiberId)
  | markFinished (f : FiberId)
  | switchToWorker (f : FiberId)
  | onIdleCall
  | popAttempt (res : Option FiberId)
  | stealAttempt (res : Option FiberId)
  | executeFiber (f : FiberId)
  | yieldThread
  | poolPushEv (f : FiberId)
deriving Repr, DecidableEq

/-- Model of `Fiber::reset(work, counter, entry_fn)` — the logical part: the
work closure is installed, the signal counter recorded, and the finished
flag and all three link/suspension fields cleared. (The stack-pointer
priming that follows in the C++ body is memory layout.) -/
def Fiber.reset (_f : Fiber) (c : Option CounterId) : Fiber :=
  { has_work := true
    signal_counter := c
    is_finished := false
    next_waiting := none
    next_pool := none
    pending_wait_counter := none }

/-- Model of `LockFreeFiberPool::push`: the fiber's `next_pool` link is aimed
at the old head and the fiber becomes the new head. -/
def pool_push (s : SchedState) (f : FiberId) : SchedState :=
  { s with
    fibers := upd s.fibers f { s.fibers f with next_pool := s.pool.head? }
    pool := f :: s.pool }

/-- Model of `LockFreeFiberPool::pop`: returns `none` on an empty pool,
otherwise unlinks and returns the head. -/
def pool_pop (p : List FiberId) : Option FiberId × List FiberId :=
  match p with
  | [] => (none, [])
  | h :: t => (some h, t)

/-- Model of `TaskScheduler::allocate_fiber`: pop the pool; on `none` fall
back to a freshly heap-allocated fiber, whose identity is supplied by the
`fresh` parameter. -/
def allocate_fiber (s : SchedState) (fresh : FiberId) : FiberId × SchedState :=
  match pool_pop s.pool with
  | (some h, t) => (h, { s with pool := t })
  | (none, _) => (fresh, s)

/-- The worker index `spawn` pushes to:
`(t_scheduler) ? t_worker_index : 0u`. -/
def spawnIdx (ctx : ThreadCtx) : Nat :=
  if ctx.t_scheduler then ctx.t_worker_index else 0

/-- Model of `TaskScheduler::spawn(name, work, counter)`: allocate a fiber,
reset it with the work and counter, increment the counter if non-null, then
push the fiber onto the current thread's worker queue (worker 0 when no
scheduler context is established). The trace records the increment and the
push in program order. -/
def spawn (ctx : ThreadCtx) (counter : Option CounterId) (fresh : FiberId)
    (s : SchedState) : SchedState × List Event :=
  let af := allocate_fiber s fresh
  let f := af.1
  let s1 := af.2
  let s2 := { s1 with fibers := upd s1.fibers f ((s1.fibers f).reset counter) }
  let idx := spawnIdx ctx
  match counter with
  | some c =>
      let s3 := { s2 with
        counters := upd s2.counters c
          { s2.counters c with value := (s2.counters c).value + 1 } }
      ({ s3 with queues := upd s3.queues idx (f :: s3.queues idx) },
       [Event.counterInc c, Event.queuePush idx f])
  | none =>
      ({ s2 with queues := upd s2.queues idx (f :: s2.queues idx) },
       [Event.queuePush idx f])

/-- Iterated `spawn` of `n` tasks under counter `c` (fresh heap identities
supplied as `0, 1, 2, ...`), modelling a caller that spawns `n` tasks under
one counter before any of them runs. -/
def spawnN (ctx : ThreadCtx) (c : CounterId) : Nat → SchedState → SchedState
  | 0, s => s
  | n + 1, s => (spawn ctx (some c) n (spawnN ctx c n s)).1

/-- Model of `TaskScheduler::submit_main_thread_task(work, counter)`:
allocate and reset a fiber, increment the counter if non-null, then either
push directly onto worker 0's queue (when the calling thread is bound to
worker 0) or append at the back of the main-thread FIFO under the mutex. -/
def submit_main_thread_task (ctx : ThreadCtx) (counter : Option CounterId)
    (fresh : FiberId) (s : SchedState) : SchedState × List Event :=
  let af := allocate_fiber s fresh
  let f := af.1
  let s1 := af.2
  let s2 := { s1 with fibers := upd s1.fibers f ((s1.fibers f).reset counter) }
  let s3ev : SchedState × List Event :=
    match counter with
    | some c =>
        ({ s2 with
           counters := upd s2.counters c
             { s2.counters c with value := (s2.counters c).value + 1 } },
         [Event.counterInc c])
    | none => (s2, [])
  let s3 := s3ev.1
  let ev := s3ev.2
  if ctx.t_scheduler ∧ ctx.t_worker_index = 0 then
    ({ s3 with queues := upd s3.queues 0 (f :: s3.queues 0) },
     ev ++ [Event.queuePush 0 f])
  else
    ({ s3 with mainQueue := s3.mainQueue ++ [f] },
     ev ++ [Event.mainQueueAppend f])

/-- The drain loop shared by `fiber_entry_stub` and `execute_task`: walk the
chain obtained from the atomic `exchange`, and for each fiber clear its
`next_waiting` link and push it onto the *current* worker's queue
(`workers[t_worker_index]->queue.push`). -/
def drain_waiting (tIdx : Nat) : List FiberId → SchedState → SchedState
  | [], s => s
  | g :: rest, s =>
      drain_waiting tIdx rest
        { s with
          fibers := upd s.fibers g { s.fibers g with next_waiting := none }
          queues := upd s.queues tIdx (g :: s.queues tIdx) }

/-- The `if (self->signal_counter)` block of `fiber_entry_stub`, run by the
thread bound to worker `tIdx`: `fetch_sub(1)` the counter, and when the
returned previous value is 1 (the decrement transitions the counter to
zero) exchange out its entire waiting list and requeue every fiber on it
onto the current worker's queue via `drain_waiting`. -/
def signal_and_drain (tIdx : Nat) (c : CounterId) (s : SchedState) :
    SchedState × List Event :=
  let prev := (s.counters c).value
  let s1 := { s with
    counters := upd s.counters c { s.counters c with value := prev - 1 } }
  if prev = 1 then
    let lst := (s1.counters c).waiting_list
    let s2 := { s1 with
      counters := upd s1.counters c { s1.counters c with waiting_list := [] } }
    (drain_waiting tIdx lst s2,
     [Event.counterDec c prev, Event.waitListSwapOut c]
       ++ lst.map (Event.queuePush tIdx))
  else
    (s1, [Event.counterDec c prev])

/-- Model of `TaskScheduler::fiber_entry_stub`, run on fiber `self` by the
thread bound to worker `tIdx`: run the work closure; if a signal counter is
attached, decrement it and drain its waiting list when the decrement hit
zero (`signal_and_drain`); then set `is_finished` and switch back to the
worker stack. -/
def fiber_entry_stub (tIdx : Nat) (self : FiberId) (s : SchedState) :
    SchedState × List Event :=
  let ev0 : List Event :=
    if (s.fibers self).has_work then [Event.runWork self] else []
  let mid : SchedState × List Event :=
    match (s.fibers self).signal_counter with
    | some c => signal_and_drain tIdx c s
    | none => (s, [])
  let s2 := mid.1
  let s3 := { s2 with
    fibers := upd s2.fibers self { s2.fibers self with is_finished := true } }
  (s3, ev0 ++ mid.2 ++ [Event.markFinished self, Event.switchToWorker self])

/-- The "Post-Switch Wait" block of `TaskScheduler::execute_task`, for a
fiber `f` that flagged `pending_wait_counter = c`: clear the flag, CAS-push
`f` onto the counter's waiting list (its `next_waiting` aimed at the old
head), and only after the push reload the counter's value; if the value is
zero, exchange out the whole waiting list and requeue every entry onto the
current worker's queue. -/
def register_wait (tIdx : Nat) (f : FiberId) (c : CounterId) (s : SchedState) :
    SchedState × List Event :=
  let s1 := { s with
    fibers := upd s.fibers f { s.fibers f with pending_wait_counter := none } }
  let oldList := (s1.counters c).waiting_list
  let s2 := { s1 with
    fibers := upd s1.fibers f { s1.fibers f with next_waiting := oldList.head? }
    counters := upd s1.counters c
      { s1.counters c with waiting_list := f :: oldList } }
  let v := (s2.counters c).value
  if v = 0 then
    let lst := (s2.counters c).waiting_list
    let s3 := { s2 with
      counters := upd s2.counters c { s2.counters c with waiting_list := [] } }
    (drain_waiting tIdx lst s3,
     [Event.waitListPush c f, Event.counterLoad c v, Event.waitListSwapOut c]
       ++ lst.map (Event.queuePush tIdx))
  else
    (s2, [Event.waitListPush c f, Event.counterLoad c v])

/-- Model of the post-switch half of `TaskScheduler::execute_task`, i.e. the
code that runs on the worker stack after control returns from fiber `f`:
if the fiber flagged `pending_wait_counter`, perform the waiting-list
registration and the post-push zero re-check (`register_wait`); otherwise,
if the fiber is finished, null its work closure and return it to the fiber
pool. -/
def execute_task_post (tIdx : Nat) (f : FiberId) (s : SchedState) :
    SchedState × List Event :=
  match (s.fibers f).pending_wait_counter with
  | some c => register_wait tIdx f c s
  | none =>
      if (s.fibers f).is_finished then
        let s1 := { s with
          fibers := upd s.fibers f { s.fibers f with has_work := false } }
        (pool_push s1 f, [Event.poolPushEv f])
      else (s, [])

/-- Outcome of the entry portion of `wait_for_counter`. -/
inductive WaitOutcome where
  | returnedImmediately
  | suspendedFiber (f : FiberId)
  | enteredRootLoop
deriving Repr, DecidableEq

/-- Model of the entry of `TaskScheduler::wait_for_counter(counter, on_idle)`
(lines before the root helping loop): if the counter's value loads as zero,
return immediately; otherwise, if a fiber is current, flag its
`pending_wait_counter` and switch back to the worker stack; otherwise fall
through into the root-context helping loop (modelled by `rootLoop`). -/
def wait_for_counter_entry (c : CounterId) (cur : Option FiberId)
    (s : SchedState) : SchedState × List Event × WaitOutcome :=
  if (s.counters c).value = 0 then
    (s, [], WaitOutcome.returnedImmediately)
  else
    match cur with
    | some f =>
        ({ s with
           fibers := upd s.fibers f
             { s.fibers f with pending_wait_counter := some c } },
         [Event.switchToWorker f], WaitOutcome.suspendedFiber f)
    | none => (s, [], WaitOutcome.enteredRootLoop)

/-- One iteration of the root-context helping loop of `wait_for_counter`,
as the C++ body orders it: call `on_idle` if provided, then try to pop the
local worker queue, then (only if the pop came back empty) try to steal from
a peer; execute whatever fiber was obtained, else yield. `popRes` and
`stealRes` are the results the queues would deliver at this iteration. -/
def rootIter (hasOnIdle : Bool) (popRes stealRes : Option FiberId) :
    List Event :=
  let ev1 : List Event := if hasOnIdle then [Event.onIdleCall] else []
  match popRes with
  | some f => ev1 ++ [Event.popAttempt popRes, Event.executeFiber f]
  | none =>
      match stealRes with
      | some f =>
          ev1 ++ [Event.popAttempt popRes, Event.stealAttempt stealRes,
                  Event.executeFiber f]
      | none =>
          ev1 ++ [Event.popAttempt popRes, Event.stealAttempt stealRes,
                  Event.yieldThread]

/-- Modelled from the spec claim's wording, for comparison with `rootIter`:
"tries, in this order: pop from the local worker queue, then steal from a
peer, then call `on_idle` (if provided), then yield; it executes any fiber
it obtains". Under that order, `on_idle` is reached only after both the pop
and the steal come back empty. -/
def rootIterClaimed (hasOnIdle : Bool) (popRes stealRes : Option FiberId) :
    List Event :=
  match popRes with
  | some f => [Event.popAttempt popRes, Event.executeFiber f]
  | none =>
      match stealRes with
      | some f =>
          [Event.popAttempt popRes, Event.stealAttempt stealRes,
           Event.executeFiber f]
      | none =>
          [Event.popAttempt popRes, Event.stealAttempt stealRes]
            ++ (if hasOnIdle then [Event.onIdleCall] else [])
            ++ [Event.yieldThread]

/-- Oracle for the root helping loop: the counter value observed at the head
of each iteration, and what the local pop and the steal would return there.
It abstracts the effect of the fibers executed by the loop on the counter. -/
structure RootEnv where
  obs : Nat → Int
  popRes : Nat → Option FiberId
  stealRes : Nat → Option FiberId
  hasOnIdle : Bool

/-- The root-context helping loop `while (counter.value.load() > 0) ...` of
`wait_for_counter`, driven by the oracle `env` starting at iteration `i`,
with `fuel` bounding the number of loop tests modelled. On normal exit it
returns the concatenated iteration trace and the final observed value (the
one that failed the `> 0` test); `none` means the fuel ran out first. -/
def rootLoop (env : RootEnv) : Nat → Nat → Option (List Event × Int)
  | 0, _ => none
  | fuel + 1, i =>
      if env.obs i > 0 then
        match rootLoop env fuel (i + 1) with
        | none => none
        | some (tr, ex) =>
            some (rootIter env.hasOnIdle (env.popRes i) (env.stealRes i) ++ tr,
                  ex)
      else
        some ([], env.obs i)

/-- `batch_count` of `TaskScheduler::ParallelFor`:
`(count + chunk_size - 1) / chunk_size`, i.e. `ceil(count / chunk_size)`
for positive arguments. -/
def batch_count (count chunk_size : Nat) : Nat :=
  (count + chunk_size - 1) / chunk_size

/-- The ranges `(start, end)` of the tasks spawned by
`TaskScheduler::ParallelFor(count, chunk_size, body, counter)`:
`start = i * chunk_size`, `end = min(start + chunk_size, count)` for
`i = 0, ..., batch_count - 1`, one spawned task per range. -/
def ParallelFor_tasks (count chunk_size : Nat) : List (Nat × Nat) :=
  (List.range (batch_count count chunk_size)).map
    (fun i => (i * chunk_size, min (i * chunk_size + chunk_size) count))

/-- The argument pairs with which one spawned `ParallelFor` task invokes
`body` when it runs, as the C++ closure is written:
`for (auto j = start; j < end; ++j) body(j, j);` — one invocation `(j, j)`
per index `j` of the range. -/
def task_body_invocations (start stop : Nat) : List (Nat × Nat) :=
  (List.range' start (stop - start)).map (fun j => (j, j))

/-- All `body` invocations performed by the tasks of
`ParallelFor(count, chunk_size, body, counter)` (concatenated in task
order; the spec guarantees no order anyway). -/
def ParallelFor_invocations (count chunk_size : Nat) : List (Nat × Nat) :=
  (ParallelFor_tasks count chunk_size).flatMap
    (fun p => task_body_invocations p.1 p.2)

/-- Modelled from the spec's wording, for comparison with
`ParallelFor_invocations`: "each task invokes `body(range_start, range_end)`
once" — one invocation per spawned range, carrying the range's bounds. -/
def ParallelFor_invocations_spec (count chunk_size : Nat) : List (Nat × Nat) :=
  ParallelFor_tasks count chunk_size

/-- A fiber with no work, no counter and all links clear (used to populate
concrete states). -/
def fiber0 : Fiber :=
  { has_work := false
    signal_counter := none
    is_finished := false
    next_waiting := none
    next_pool := none
    pending_wait_counter := none }

/-- A concrete scheduler state: all counters zero with empty waiting lists,
all queues empty, empty main FIFO, empty pool. -/
def baseState : SchedState :=
  { counters := fun _ => { value := 0, waiting_list := [] }
    queues := fun _ => []
    mainQueue := []
    pool := []
    fibers := fun _ => fiber0 }

/-- A thread context bound to worker 2. -/
def exCtx : ThreadCtx := { t_scheduler := true, t_worker_index := 2 }

/-- A thread context bound to worker 0 (the main worker). -/
def exCtxMain : ThreadCtx := { t_scheduler := true, t_worker_index := 0 }

/-- A thread context with no scheduler binding established. -/
def exCtxOther : ThreadCtx := { t_scheduler := false, t_worker_index := 3 }

/-- A concrete state whose counters all hold value 2 (nonzero). -/
def exStateOne : SchedState :=
  { baseState with counters := fun _ => { value := 2, waiting_list := [] } }

/-- A concrete state for exercising `fiber_entry_stub`: every counter holds
value 1 with fiber 7 on its waiting list, and every fiber has work and
signals counter 0. -/
def exStateC4 : SchedState :=
  { baseState with
    counters := fun _ => { value := 1, waiting_list := [7] }
    fibers := fun _ => { fiber0 with signal_counter := some 0, has_work := true } }

/-- A concrete state for exercising `execute_task_post`: every counter holds
value 0 with fiber 9 on its waiting list, and every fiber is flagged as
pending a wait on counter 0. -/
def exStateC5 : SchedState :=
  { baseState with
    counters := fun _ => { value := 0, waiting_list := [9] }
    fibers := fun _ => { fiber0 with pending_wait_counter := some 0 } }

/-- A concrete root-loop oracle: the counter is observed at 1 on the first
iteration and 0 afterwards; pops and steals find nothing; `on_idle` is
provided. -/
def exEnv : RootEnv :=
  { obs := fun i => if i = 0 then 1 else 0
    popRes := fun _ => none
    stealRes := fun _ => none
    hasOnIdle := true }

theorem upd_same {β : Type} (f : Nat → β) (a : Nat) (b : β) : upd f a b a = b := by
  simp [upd]

theorem upd_ne {β : Type} (f : Nat → β) (a x : Nat) (b : β) (h : x ≠ a) :
    upd f a b x = f x := by
  simp [upd, h]

theorem drain_counters (tIdx : Nat) (lst : List FiberId) (s : SchedState) :
    (drain_waiting tIdx lst s).counters = s.counters := by
  induction lst generalizing s with
  | nil => rfl
  | cons g rest ih => simp [drain_waiting, ih]

theorem drain_queues_ne (tIdx j : Nat) (lst : List FiberId) (s : SchedState)
    (h : j ≠ tIdx) : (drain_waiting tIdx lst s).queues j = s.queues j := by
  induction lst generalizing s with
  | nil => rfl
  | cons g rest ih => simp [drain_waiting, ih, upd_ne _ _ _ _ h]

theorem drain_queues_mem (tIdx j : Nat) (lst : List FiberId) (s : SchedState)
    (x : FiberId) (h : x ∈ s.queues j) :
    x ∈ (drain_waiting tIdx lst s).queues j := by
  induction lst generalizing s with
  | nil => exact h
  | cons g rest ih =>
      apply ih
      show x ∈ upd s.queues tIdx (g :: s.queues tIdx) j
      by_cases hj : j = tIdx
      · subst hj; rw [upd_same]; exact List.mem_cons_of_mem _ h
      · rw [upd_ne _ _ _ _ hj]; exact h

theorem drain_mem_self (tIdx : Nat) (lst : List FiberId) (s : SchedState)
    (g : FiberId) (h : g ∈ lst) :
    g ∈ (drain_waiting tIdx lst s).queues tIdx := by
  induction lst generalizing s with
  | nil => cases h
  | cons g0 rest ih =>
      rcases List.mem_cons.mp h with h1 | h1
      · subst h1
        rw [drain_waiting]
        apply drain_queues_mem
        show g ∈ upd s.queues tIdx (g :: s.queues tIdx) tIdx
        rw [upd_same]
        exact List.mem_cons_self _ _
      · rw [drain_waiting]
        exact ih _ h1

theorem drain_fibers_pending (tIdx : Nat) (lst : List FiberId) (s : SchedState)
    (x : FiberId) :
    ((drain_waiting tIdx lst s).fibers x).pending_wait_counter
      = (s.fibers x).pending_wait_counter := by
  induction lst generalizing s with
  | nil => rfl
  | cons g rest ih =>
      rw [drain_waiting, ih]
      by_cases hx : x = g
      · subst hx; simp [upd]
      · simp [upd, hx]

theorem rootLoop_exit_nonpos (env : RootEnv) (fuel : Nat) :
    ∀ (i : Nat) (tr : List Event) (ex : Int),
      rootLoop env fuel i = some (tr, ex) → ¬ ex > 0 := by
  induction fuel with
  | zero => intro i tr ex h; simp [rootLoop] at h
  | succ n ih =>
      intro i tr ex h
      by_cases hv : env.obs i > 0
      · rw [rootLoop, if_pos hv] at h
        rcases hr : rootLoop env n (i + 1) with _ | ⟨⟨tr2, ex2⟩⟩
        · rw [hr] at h
          simp at h
        · rw [hr] at h
          simp only [Option.some.injEq, Prod.mk.injEq] at h
          exact h.2 ▸ ih (i + 1) tr2 ex2 hr
      · rw [rootLoop, if_neg hv] at h
        simp only [Option.some.injEq, Prod.mk.injEq] at h
        exact h.2 ▸ hv

theorem spawn_counter_value (ctx : ThreadCtx) (c : CounterId) (fresh : FiberId)
    (s : SchedState) :
    ((spawn ctx (some c) fresh s).1.counters c).value
      = (s.counters c).value + 1 := by
  cases hp : s.pool <;>
    simp [spawn, allocate_fiber, pool_pop, hp, upd_same]

theorem spawn_counter_other (ctx : ThreadCtx) (c c2 : CounterId)
    (fresh : FiberId) (s : SchedState) (h : c2 ≠ c) :
    (spawn ctx (some c) fresh s).1.counters c2 = s.counters c2 := by
  cases hp : s.pool <;>
    simp [spawn, allocate_fiber, pool_pop, hp, upd_ne _ _ _ _ h]

theorem spawn_trace (ctx : ThreadCtx) (c : CounterId) (fresh : FiberId)
    (s : SchedState) :
    (spawn ctx (some c) fresh s).2
      = [Event.counterInc c,
         Event.queuePush (spawnIdx ctx) (allocate_fiber s fresh).1] := by
  cases hp : s.pool <;>
    simp [spawn, allocate_fiber, pool_pop, hp]

theorem spawnN_counter_value (ctx : ThreadCtx) (c : CounterId) (s : SchedState) :
    ∀ N : Nat, ((spawnN ctx c N s).counters c).value
      = (s.counters c).value + N := by
  intro N
  induction N with
  | zero => simp [spawnN]
  | succ n ih =>
      rw [spawnN, spawn_counter_value, ih]
      push_cast
      ring

set_option maxRecDepth 4000

theorem ParallelFor_tasks_at_1000_100 :
    ParallelFor_tasks 1000 100
      = [(0, 100), (100, 200), (200, 300), (300, 400), (400, 500),
         (500, 600), (600, 700), (700, 800), (800, 900), (900, 1000)] := by
  decide

theorem ParallelFor_invocations_length (count chunk : Nat) :
    (ParallelFor_invocations count chunk).length
      = ((ParallelFor_tasks count chunk).map (fun p => p.2 - p.1)).sum := by
  rw [ParallelFor_invocations, List.length_flatMap]
  have h : (List.length ∘ fun p : Nat × Nat => task_body_invocations p.1 p.2)
      = fun p : Nat × Nat => p.2 - p.1 := by
    funext p
    simp [task_body_invocations]
  rw [h]

theorem ParallelFor_invocations_diag (count chunk : Nat) :
    ∀ p ∈ ParallelFor_invocations count chunk, p.1 = p.2 := by
  intro p hp
  rw [ParallelFor_invocations, List.mem_flatMap] at hp
  rcases hp with ⟨q, _, hq⟩
  rw [task_body_invocations, List.mem_map] at hq
  rcases hq with ⟨j, _, rfl⟩
  rfl

theorem ParallelFor_invocations_length_1000 :
    (ParallelFor_invocations 1000 100).length = 1000 := by
  rw [ParallelFor_invocations_length, ParallelFor_tasks_at_1000_100]
  decide

/-- C1: evaluation of `ParallelFor` at the spec's example input
`count = 1000`, `chunk_size = 100`. The code does spawn exactly
`ceil(1000/100) = 10` tasks whose ranges partition `[0, 1000)` into the
consecutive half-open ranges `[0,100), ..., [900,1000)`; but each spawned
task's closure invokes `body(j, j)` once per index `j` of its range — both
arguments equal — for 1000 invocations in total, instead of the single
`body(range_start, range_end)` invocation per task that the spec (and the
repository's own `ParallelFor` callers, which iterate `[start, end)`
themselves inside `body`) prescribe. The invocation list therefore differs
from the spec-prescribed one. -/
theorem C1_parallelFor_at_failing_input :
    ParallelFor_tasks 1000 100
        = [(0, 100), (100, 200), (200, 300), (300, 400), (400, 500),
           (500, 600), (600, 700), (700, 800), (800, 900), (900, 1000)] ∧
    (ParallelFor_invocations 1000 100).length = 1000 ∧
    List.Forall (fun p => p.1 = p.2) (ParallelFor_invocations 1000 100) ∧
    ParallelFor_invocations 1000 100 ≠ ParallelFor_invocations_spec 1000 100 := by
  refine ⟨ParallelFor_tasks_at_1000_100, ParallelFor_invocations_length_1000,
          List.forall_iff_forall_mem.mpr (ParallelFor_invocations_diag 1000 100),
          ?_⟩
  intro h
  have hl := congrArg List.length h
  rw [ParallelFor_invocations_length_1000] at hl
  rw [ParallelFor_invocations_spec, ParallelFor_tasks_at_1000_100] at hl
  exact absurd hl (by decide)

/-- C2: `spawn` with a non-null counter increments exactly that counter by
1 — and that increment precedes the queue push of the primed fiber in the
emitted trace, so the fiber cannot have run before it; consequently `N`
successive spawns under a counter whose value is 0 leave its value at `N`. -/
theorem C2_spawn_increment_before_push :
    (∀ (ctx : ThreadCtx) (c : CounterId) (fresh : FiberId) (s : SchedState),
        ((spawn ctx (some c) fresh s).1.counters c).value
            = (s.counters c).value + 1 ∧
        (∀ c2, c2 ≠ c →
            (spawn ctx (some c) fresh s).1.counters c2 = s.counters c2) ∧
        (spawn ctx (some c) fresh s).2
            = [Event.counterInc c,
               Event.queuePush (spawnIdx ctx) (allocate_fiber s fresh).1]) ∧
    (∀ (ctx : ThreadCtx) (c : CounterId) (s : SchedState) (N : Nat),
        (s.counters c).value = 0 →
        ((spawnN ctx c N s).counters c).value = N) := by
  constructor
  · intro ctx c fresh s
    exact ⟨spawn_counter_value ctx c fresh s,
           fun c2 h => spawn_counter_other ctx c c2 fresh s h,
           spawn_trace ctx c fresh s⟩
  · intro ctx c s N h
    rw [spawnN_counter_value, h, zero_add]

theorem C2_witness :
    ((spawnN exCtx 0 3 baseState).counters 0).value = 3 := by
  have h := C2_spawn_increment_before_push.2 exCtx 0 baseState 3 rfl
  exact_mod_cast h

/-- C6: `wait_for_counter` on a counter whose value loads as zero returns
immediately: the state comes back unchanged (no fiber suspension flag, no
queue or counter modification), no events are emitted (no task execution,
no `on_idle` call), and the outcome is an immediate return. -/
theorem C6_wait_for_counter_zero_noop (c : CounterId) (cur : Option FiberId)
    (s : SchedState) (h : (s.counters c).value = 0) :
    wait_for_counter_entry c cur s = (s, [], WaitOutcome.returnedImmediately) := by
  rw [wait_for_counter_entry.eq_def, if_pos h]

theorem C6_witness :
    wait_for_counter_entry 0 none baseState
        = (baseState, [], WaitOutcome.returnedImmediately) :=
  C6_wait_for_counter_zero_noop 0 none baseState rfl

/-- C8: `LockFreeFiberPool::pop` returns null exactly on the empty pool, and
`allocate_fiber` never fails its caller: an empty pool yields the freshly
heap-allocated fiber, a non-empty pool yields its head. -/
theorem C8_pool_empty_fallback :
    (∀ p : List FiberId, (pool_pop p).1 = none ↔ p = []) ∧
    (∀ (s : SchedState) (fresh : FiberId),
        s.pool = [] → allocate_fiber s fresh = (fresh, s)) ∧
    (∀ (s : SchedState) (fresh h0 : FiberId) (t : List FiberId),
        s.pool = h0 :: t →
        (allocate_fiber s fresh).1 = h0 ∧ (allocate_fiber s fresh).2.pool = t) := by
  refine ⟨?_, ?_, ?_⟩
  · intro p
    cases p <;> simp [pool_pop]
  · intro s fresh h
    simp [allocate_fiber, pool_pop, h]
  · intro s fresh h0 t hp
    simp [allocate_fiber, pool_pop, hp]

theorem C8_witness : allocate_fiber baseState 5 = (5, baseState) :=
  C8_pool_empty_fallback.2.1 baseState 5 rfl

theorem signal_and_drain_trace (tIdx : Nat) (c : CounterId) (s : SchedState) :
    (signal_and_drain tIdx c s).2
      = Event.counterDec c (s.counters c).value
          :: (if (s.counters c).value = 1 then
                Event.waitListSwapOut c
                  :: ((s.counters c).waiting_list).map (Event.queuePush tIdx)
              else []) := by
  by_cases h1 : (s.counters c).value = 1 <;>
    simp [signal_and_drain, h1, upd_same]

theorem signal_and_drain_value (tIdx : Nat) (c : CounterId) (s : SchedState) :
    ((signal_and_drain tIdx c s).1.counters c).value
      = (s.counters c).value - 1 := by
  by_cases h1 : (s.counters c).value = 1 <;>
    simp [signal_and_drain, h1, drain_counters, upd_same]

theorem signal_and_drain_waiting_nil (tIdx : Nat) (c : CounterId)
    (s : SchedState) (h1 : (s.counters c).value = 1) :
    ((signal_and_drain tIdx c s).1.counters c).waiting_list = [] := by
  simp [signal_and_drain, h1, drain_counters, upd_same]

theorem signal_and_drain_mem (tIdx : Nat) (c : CounterId) (s : SchedState)
    (g : FiberId) (h1 : (s.counters c).value = 1)
    (hg : g ∈ (s.counters c).waiting_list) :
    g ∈ (signal_and_drain tIdx c s).1.queues tIdx := by
  simp only [signal_and_drain, h1, upd_same, if_pos]
  exact drain_mem_self _ _ _ _ hg

theorem signal_and_drain_queues_ne (tIdx j : Nat) (c : CounterId)
    (s : SchedState) (hj : j ≠ tIdx) :
    (signal_and_drain tIdx c s).1.queues j = s.queues j := by
  by_cases h1 : (s.counters c).value = 1
  · simp only [signal_and_drain, h1, upd_same, if_pos]
    rw [drain_queues_ne _ _ _ _ hj]
  · simp [signal_and_drain, h1]

theorem register_wait_trace (tIdx : Nat) (f : FiberId) (c : CounterId)
    (s : SchedState) :
    (register_wait tIdx f c s).2
      = [Event.waitListPush c f, Event.counterLoad c (s.counters c).value]
          ++ (if (s.counters c).value = 0 then
                Event.waitListSwapOut c
                  :: ((f :: (s.counters c).waiting_list)).map (Event.queuePush tIdx)
              else []) := by
  by_cases h0 : (s.counters c).value = 0 <;>
    simp [register_wait, h0, upd_same]

theorem register_wait_pending (tIdx : Nat) (f : FiberId) (c : CounterId)
    (s : SchedState) :
    ((register_wait tIdx f c s).1.fibers f).pending_wait_counter = none := by
  by_cases h0 : (s.counters c).value = 0 <;>
    simp [register_wait, h0, drain_fibers_pending, upd_same, upd]

theorem register_wait_waiting_of_nonzero (tIdx : Nat) (f : FiberId)
    (c : CounterId) (s : SchedState) (h0 : (s.counters c).value ≠ 0) :
    ((register_wait tIdx f c s).1.counters c).waiting_list
      = f :: (s.counters c).waiting_list := by
  simp [register_wait, h0, upd_same]

theorem register_wait_waiting_of_zero (tIdx : Nat) (f : FiberId)
    (c : CounterId) (s : SchedState) (h0 : (s.counters c).value = 0) :
    ((register_wait tIdx f c s).1.counters c).waiting_list = [] := by
  simp [register_wait, h0, drain_counters, upd_same]

theorem register_wait_mem (tIdx : Nat) (f : FiberId) (c : CounterId)
    (s : SchedState) (g : FiberId) (h0 : (s.counters c).value = 0)
    (hg : g ∈ f :: (s.counters c).waiting_list) :
    g ∈ (register_wait tIdx f c s).1.queues tIdx := by
  simp only [register_wait, h0, upd_same, if_pos]
  exact drain_mem_self _ _ _ _ hg

theorem register_wait_queues_ne (tIdx j : Nat) (f : FiberId) (c : CounterId)
    (s : SchedState) (hj : j ≠ tIdx) :
    (register_wait tIdx f c s).1.queues j = s.queues j := by
  by_cases h0 : (s.counters c).value = 0
  · simp only [register_wait, h0, upd_same, if_pos]
    rw [drain_queues_ne _ _ _ _ hj]
  · simp [register_wait, h0, upd_same]

/-- C4: `fiber_entry_stub` performs, in order: run the work closure; if a
signal counter is attached, decrement it by 1, and if the decrement
transitions the counter to zero (previous value 1), swap out the counter's
entire waiting list and requeue every fiber on it; then mark the fiber
finished; then switch back to the worker stack — the emitted trace lists
exactly these steps in this order, and the state reflects them. -/
theorem C4_fiber_entry_stub_order (tIdx self : Nat) (s : SchedState)
    (c : CounterId) (hsig : (s.fibers self).signal_counter = some c)
    (hw : (s.fibers self).has_work = true) :
    (fiber_entry_stub tIdx self s).2
        = Event.runWork self :: Event.counterDec c (s.counters c).value
            :: ((if (s.counters c).value = 1 then
                   Event.waitListSwapOut c
                     :: ((s.counters c).waiting_list).map (Event.queuePush tIdx)
                 else [])
              ++ [Event.markFinished self, Event.switchToWorker self]) ∧
    ((fiber_entry_stub tIdx self s).1.counters c).value
        = (s.counters c).value - 1 ∧
    ((fiber_entry_stub tIdx self s).1.fibers self).is_finished = true ∧
    ((s.counters c).value = 1 →
        ((fiber_entry_stub tIdx self s).1.counters c).waiting_list = [] ∧
        ∀ g ∈ (s.counters c).waiting_list,
          g ∈ (fiber_entry_stub tIdx self s).1.queues tIdx) := by
  refine ⟨?_, ?_, ?_, fun h1 => ⟨?_, ?_⟩⟩
  · simp [fiber_entry_stub, hsig, hw, signal_and_drain_trace]
  · simp [fiber_entry_stub, hsig, hw, signal_and_drain_value]
  · simp [fiber_entry_stub, hsig, hw, upd_same]
  · simp [fiber_entry_stub, hsig, hw, signal_and_drain_waiting_nil _ _ _ h1]
  · intro g hg
    simp only [fiber_entry_stub, hsig, hw]
    exact signal_and_drain_mem tIdx c s g h1 hg

theorem C4_witness :
    ((fiber_entry_stub 2 5 exStateC4).1.fibers 5).is_finished = true ∧
    ((fiber_entry_stub 2 5 exStateC4).1.counters 0).waiting_list = [] ∧
    7 ∈ (fiber_entry_stub 2 5 exStateC4).1.queues 2 := by
  have h := C4_fiber_entry_stub_order 2 5 exStateC4 0 rfl rfl
  have h2 := h.2.2.2 rfl
  exact ⟨h.2.2.1, h2.1, h2.2 7 (by simp [exStateC4, baseState])⟩

/-- C5: after a fiber suspends on a counter (its `pending_wait_counter` set
when control returns to the worker), `execute_task` first pushes the fiber
onto the counter's waiting list and only afterwards re-checks the counter's
value (the trace lists the push strictly before the load); if the value is
zero at that re-check, the entire waiting list is swapped out and every
entry — the just-registered fiber included — is requeued, so the fiber is
never left on the waiting list of a counter observed zero after its
registration; if the value is nonzero the fiber stays registered at the
head of the waiting list. -/
theorem C5_execute_task_wait_registration (tIdx f : Nat) (s : SchedState)
    (c : CounterId) (hp : (s.fibers f).pending_wait_counter = some c) :
    (execute_task_post tIdx f s).2
        = [Event.waitListPush c f, Event.counterLoad c (s.counters c).value]
            ++ (if (s.counters c).value = 0 then
                  Event.waitListSwapOut c
                    :: ((f :: (s.counters c).waiting_list)).map
                        (Event.queuePush tIdx)
                else []) ∧
    ((execute_task_post tIdx f s).1.fibers f).pending_wait_counter = none ∧
    ((s.counters c).value ≠ 0 →
        ((execute_task_post tIdx f s).1.counters c).waiting_list
          = f :: (s.counters c).waiting_list) ∧
    ((s.counters c).value = 0 →
        ((execute_task_post tIdx f s).1.counters c).waiting_list = [] ∧
        f ∈ (execute_task_post tIdx f s).1.queues tIdx ∧
        ∀ g ∈ (s.counters c).waiting_list,
          g ∈ (execute_task_post tIdx f s).1.queues tIdx) := by
  refine ⟨?_, ?_, ?_, fun h0 => ⟨?_, ?_, ?_⟩⟩
  · simp [execute_task_post, hp, register_wait_trace]
  · simp [execute_task_post, hp, register_wait_pending]
  · intro h0
    simp [execute_task_post, hp, register_wait_waiting_of_nonzero _ _ _ _ h0]
  · simp [execute_task_post, hp, register_wait_waiting_of_zero _ _ _ _ h0]
  · simp only [execute_task_post, hp]
    exact register_wait_mem tIdx f c s f h0 (List.mem_cons_self _ _)
  · intro g hg
    simp only [execute_task_post, hp]
    exact register_wait_mem tIdx f c s g h0 (List.mem_cons_of_mem _ hg)

theorem C5_witness :
    ((execute_task_post 1 4 exStateC5).1.counters 0).waiting_list = [] ∧
    4 ∈ (execute_task_post 1 4 exStateC5).1.queues 1 ∧
    9 ∈ (execute_task_post 1 4 exStateC5).1.queues 1 := by
  have h := (C5_execute_task_wait_registration 1 4 exStateC5 0 rfl).2.2.2 rfl
  exact ⟨h.1, h.2.1, h.2.2 9 (by simp [exStateC5, baseState])⟩

/-- C9: whenever a counter's waiting list is drained — by the final
decrement in `fiber_entry_stub` or by the post-registration re-check in
`execute_task` — every woken fiber is pushed onto the queue of the worker
whose thread performs the drain (`t_worker_index`), and no other worker's
queue is touched. -/
theorem C9_wakeups_to_draining_worker :
    (∀ (tIdx self : Nat) (s : SchedState) (c : CounterId),
        (s.fibers self).signal_counter = some c →
        (s.counters c).value = 1 →
        (∀ g ∈ (s.counters c).waiting_list,
            g ∈ (fiber_entry_stub tIdx self s).1.queues tIdx) ∧
        (∀ j, j ≠ tIdx →
            (fiber_entry_stub tIdx self s).1.queues j = s.queues j)) ∧
    (∀ (tIdx f : Nat) (s : SchedState) (c : CounterId),
        (s.fibers f).pending_wait_counter = some c →
        (s.counters c).value = 0 →
        (∀ g ∈ f :: (s.counters c).waiting_list,
            g ∈ (execute_task_post tIdx f s).1.queues tIdx) ∧
        (∀ j, j ≠ tIdx →
            (execute_task_post tIdx f s).1.queues j = s.queues j)) := by
  constructor
  · intro tIdx self s c hsig h1
    constructor
    · intro g hg
      simp only [fiber_entry_stub, hsig]
      exact signal_and_drain_mem tIdx c s g h1 hg
    · intro j hj
      simp only [fiber_entry_stub, hsig]
      exact signal_and_drain_queues_ne tIdx j c s hj
  · intro tIdx f s c hp h0
    constructor
    · intro g hg
      simp only [execute_task_post, hp]
      exact register_wait_mem tIdx f c s g h0 hg
    · intro j hj
      simp only [execute_task_post, hp]
      exact register_wait_queues_ne tIdx j f c s hj

theorem C9_witness :
    7 ∈ (fiber_entry_stub 3 5 exStateC4).1.queues 3 ∧
    (fiber_entry_stub 3 5 exStateC4).1.queues 0 = exStateC4.queues 0 ∧
    9 ∈ (execute_task_post 2 4 exStateC5).1.queues 2 ∧
    (execute_task_post 2 4 exStateC5).1.queues 0 = exStateC5.queues 0 := by
  have h1 := C9_wakeups_to_draining_worker.1 3 5 exStateC4 0 rfl rfl
  have h2 := C9_wakeups_to_draining_worker.2 2 4 exStateC5 0 rfl rfl
  exact ⟨h1.1 7 (by simp [exStateC4, baseState]),
         h1.2 0 (by decide),
         h2.1 9 (by simp [exStateC5, baseState]),
         h2.2 0 (by decide)⟩

/-- C10: `Fiber::reset` re-primes a recycled fiber into a clean state: the
finished flag is false and the suspension/list-link fields
(`pending_wait_counter`, `next_waiting`, `next_pool`) are all null. -/
theorem C10_fiber_reset_clean (f : Fiber) (c : Option CounterId) :
    (f.reset c).is_finished = false ∧
    (f.reset c).pending_wait_counter = none ∧
    (f.reset c).next_waiting = none ∧
    (f.reset c).next_pool = none :=
  ⟨rfl, rfl, rfl, rfl⟩

/-- C7: `submit_main_thread_task` increments the counter (if non-null) by
exactly 1 before the fiber is enqueued (the trace lists the increment
first); when the calling thread is bound to worker 0 the primed fiber is
pushed directly onto worker 0's queue and the main-thread FIFO is
untouched; otherwise the fiber is appended at the back of the main-thread
FIFO and no worker queue is touched. -/
theorem C7_submit_main_thread_task_paths :
    ∀ (ctx : ThreadCtx) (c : CounterId) (fresh : FiberId) (s : SchedState),
      ((submit_main_thread_task ctx (some c) fresh s).1.counters c).value
          = (s.counters c).value + 1 ∧
      ((ctx.t_scheduler = true ∧ ctx.t_worker_index = 0) →
          (submit_main_thread_task ctx (some c) fresh s).2
              = [Event.counterInc c,
                 Event.queuePush 0 (allocate_fiber s fresh).1] ∧
          (submit_main_thread_task ctx (some c) fresh s).1.queues 0
              = (allocate_fiber s fresh).1 :: s.queues 0 ∧
          (submit_main_thread_task ctx (some c) fresh s).1.mainQueue
              = s.mainQueue) ∧
      (¬(ctx.t_scheduler = true ∧ ctx.t_worker_index = 0) →
          (submit_main_thread_task ctx (some c) fresh s).2
              = [Event.counterInc c,
                 Event.mainQueueAppend (allocate_fiber s fresh).1] ∧
          (submit_main_thread_task ctx (some c) fresh s).1.mainQueue
              = s.mainQueue ++ [(allocate_fiber s fresh).1] ∧
          (∀ j, (submit_main_thread_task ctx (some c) fresh s).1.queues j
              = s.queues j)) := by
  intro ctx c fresh s
  refine ⟨?_, fun hc => ?_, fun hc => ?_⟩
  · by_cases hc : ctx.t_scheduler = true ∧ ctx.t_worker_index = 0 <;>
      cases hp : s.pool <;>
      simp [submit_main_thread_task, allocate_fiber, pool_pop, hp, hc, upd_same]
  · cases hp : s.pool <;>
      simp [submit_main_thread_task, allocate_fiber, pool_pop, hp, hc, upd_same]
  · cases hp : s.pool <;>
      simp [submit_main_thread_task, allocate_fiber, pool_pop, hp, hc, upd_same]

theorem C7_witness :
    (submit_main_thread_task exCtxMain (some 0) 4 baseState).2
        = [Event.counterInc 0, Event.queuePush 0 4] ∧
    (submit_main_thread_task exCtxOther (some 0) 4 baseState).1.mainQueue
        = [4] := by
  have h1 := (C7_submit_main_thread_task_paths exCtxMain 0 4 baseState).2.1
      ⟨rfl, rfl⟩
  have h2 := (C7_submit_main_thread_task_paths exCtxOther 0 4 baseState).2.2
      (by simp [exCtxOther])
  constructor
  · simpa [allocate_fiber, pool_pop, baseState] using h1.1
  · simpa [allocate_fiber, pool_pop, baseState] using h2.2.1

/-- C3 counterexample: the claim orders each helping-loop iteration as
pop → steal → `on_idle` → yield, under which an iteration whose pop
succeeds never reaches `on_idle`; but in the code's iteration the
`on_idle` call comes first, unconditionally — at an iteration with
`on_idle` provided and a successful pop the two traces differ, and the
code's first action is the `on_idle` call, not the pop attempt. -/
theorem C3_counterexample :
    rootIter true (some 3) none ≠ rootIterClaimed true (some 3) none ∧
    (rootIter true (some 3) none).head? = some Event.onIdleCall := by
  decide

/-- C3 (amended): when `wait_for_counter` is called from root context (no
current fiber) with a nonzero counter it enters the helping loop; each
iteration calls `on_idle` first (when provided, and unconditionally — even
when the pop then succeeds), then tries to pop the local worker queue, then
to steal from a peer (only when the pop found nothing); it executes any
fiber it obtains and yields only when both come back empty; and the loop
terminates only at an iteration whose observed counter value fails the
`> 0` test. -/
theorem C3_root_wait_helping_loop :
    (∀ (c : CounterId) (s : SchedState),
        (s.counters c).value ≠ 0 →
        wait_for_counter_entry c none s
          = (s, [], WaitOutcome.enteredRootLoop)) ∧
    (∀ (p st : Option FiberId),
        (rootIter true p st).head? = some Event.onIdleCall) ∧
    (∀ (p st : Option FiberId),
        (rootIter false p st).head? = some (Event.popAttempt p)) ∧
    (∀ (b : Bool) (p st : Option FiberId),
        Event.popAttempt p ∈ rootIter b p st) ∧
    (∀ (b : Bool) (p st : Option FiberId),
        (Event.stealAttempt st ∈ rootIter b p st ↔ p = none)) ∧
    (∀ (b : Bool) (st : Option FiberId) (f : FiberId),
        Event.executeFiber f ∈ rootIter b (some f) st) ∧
    (∀ (b : Bool) (f : FiberId),
        Event.executeFiber f ∈ rootIter b none (some f)) ∧
    (∀ (b : Bool) (p st : Option FiberId),
        (Event.yieldThread ∈ rootIter b p st ↔ p = none ∧ st = none)) ∧
    (∀ (env : RootEnv) (fuel i : Nat) (tr : List Event) (ex : Int),
        rootLoop env fuel i = some (tr, ex) → ¬ ex > 0) := by
  refine ⟨?_, ?_, ?_, ?_, ?_, ?_, ?_, ?_,
          fun env fuel i tr ex h => rootLoop_exit_nonpos env fuel i tr ex h⟩
  · intro c s h
    rw [wait_for_counter_entry.eq_def, if_neg h]
  · intro p st
    cases p <;> cases st <;> simp [rootIter]
  · intro p st
    cases p <;> cases st <;> simp [rootIter]
  · intro b p st
    cases b <;> cases p <;> cases st <;> simp [rootIter]
  · intro b p st
    cases b <;> cases p <;> cases st <;> simp [rootIter]
  · intro b st f
    cases b <;> cases st <;> simp [rootIter]
  · intro b f
    cases b <;> simp [rootIter]
  · intro b p st
    cases b <;> cases p <;> cases st <;> simp [rootIter]

theorem C3_witness :
    wait_for_counter_entry 0 none exStateOne
        = (exStateOne, [], WaitOutcome.enteredRootLoop) ∧
    ¬ ((0 : Int) > 0) := by
  refine ⟨C3_root_wait_helping_loop.1 0 exStateOne (by decide), ?_⟩
  exact C3_root_wait_helping_loop.2.2.2.2.2.2.2.2 exEnv 2 0
      (rootIter true none none ++ []) 0 rfl

end BudThreading
